import Mathlib

/-
Verification of the teagram userbot fragment (token manager, config module,
utilities).  Strings are embedded as `List Char`; each definition is a direct
translation of the corresponding Python function.  Exceptions are modelled by
`Option`/`Except` results.
-/

set_option maxRecDepth 10000

/-- ASCII lower-casing of one character, as Python `str.lower` acts on the
ASCII inputs relevant here. -/
def lowerChar (c : Char) : Char :=
  if 'A' ≤ c ∧ c ≤ 'Z' then Char.ofNat (c.toNat + 32) else c

/-- `s.lower()` on ASCII strings. -/
def toLowerStr (s : List Char) : List Char :=
  s.map lowerChar

/-- Boolean test that `p` starts the string `s` (Python `str.startswith`). -/
def strPref : List Char → List Char → Bool
  | [], _ => true
  | _ :: _, [] => false
  | a :: as, b :: bs => a == b && strPref as bs

/-- Substring test (Python `pat in s`), scanning left to right. -/
def occursIn (pat : List Char) : List Char → Bool
  | [] => pat.isEmpty
  | c :: cs => strPref pat (c :: cs) || occursIn pat cs

/-- Association-list lookup (`dict.get` / store `get`). -/
def getA {κ α : Type} [DecidableEq κ] : List (κ × α) → κ → Option α
  | [], _ => none
  | (k1, v1) :: t, k => if k1 = k then some v1 else getA t k

/-- Association-list update (`dict[k] = v` / store `set`). -/
def setA {κ α : Type} [DecidableEq κ] : List (κ × α) → κ → α → List (κ × α)
  | [], k, v => [(k, v)]
  | (k1, v1) :: t, k, v => if k1 = k then (k, v) :: t else (k1, v1) :: setA t k v

theorem getA_setA_self {κ α : Type} [DecidableEq κ] (l : List (κ × α)) (k : κ) (v : α) :
    getA (setA l k v) k = some v := by
  induction l with
  | nil => simp [setA, getA]
  | cons hd t ih =>
    obtain ⟨k1, v1⟩ := hd
    by_cases h : k1 = k
    · simp [setA, getA, h]
    · simp [setA, getA, h, ih]

theorem strPref_self_append (p t : List Char) : strPref p (p ++ t) = true := by
  induction p with
  | nil => simp [strPref]
  | cons a as ih => simp [strPref, ih]

theorem strPref_exists_append {p s : List Char} (h : strPref p s = true) :
    ∃ t, s = p ++ t := by
  induction p generalizing s with
  | nil => exact ⟨s, rfl⟩
  | cons a as ih =>
    cases s with
    | nil => simp [strPref] at h
    | cons b bs =>
      simp only [strPref, Bool.and_eq_true, beq_iff_eq] at h
      obtain ⟨t, ht⟩ := ih h.2
      exact ⟨t, by simp [h.1, ht]⟩

/-! ### C1 : string-to-boolean coercion (`strtobool`, config.py) -/

/-- The truthy keywords of `strtobool`. -/
def trueWords : List (List Char) :=
  [("y".data), ("yes".data), ("t".data), ("true".data), ("on".data), ("1".data)]

/-- The falsy keywords of `strtobool`. -/
def falseWords : List (List Char) :=
  [("n".data), ("no".data), ("f".data), ("false".data), ("off".data), ("0".data)]

/-- `strtobool` from `teagram/modules/config.py` (distutils-derived): lower-case
the input, return `1` on a truthy keyword, `0` on a falsy keyword, and raise
`ValueError` (modelled as `none`) otherwise. -/
def strtobool (val : List Char) : Option Nat :=
  let v := toLowerStr val
  if v ∈ trueWords then some 1
  else if v ∈ falseWords then some 0
  else none

/-- C1: the coercion helper returns true (1) for every letter-case variant of a
truthy keyword, false (0) for every letter-case variant of a falsy keyword, and
raises (returns `none`) for every other string.  A string is a letter-case
variant of a keyword exactly when it lower-cases to it. -/
theorem strtobool_spec (s : List Char) :
    (toLowerStr s ∈ trueWords → strtobool s = some 1)
    ∧ (toLowerStr s ∈ falseWords → strtobool s = some 0)
    ∧ (toLowerStr s ∉ trueWords → toLowerStr s ∉ falseWords → strtobool s = none) := by
  refine ⟨fun h => ?_, fun h => ?_, fun h1 h2 => ?_⟩
  · simp [strtobool, h]
  · have hne : toLowerStr s ∉ trueWords := by
      intro hmem
      simp only [falseWords, trueWords, List.mem_cons, List.mem_singleton] at h hmem
      rcases h with h | h | h | h | h | h <;> rcases hmem with hm | hm | hm | hm | hm | hm <;>
        simp_all
    simp [strtobool, hne, h]
  · simp [strtobool, h1, h2]

/-- C1 witness: concrete evaluations through `strtobool_spec`. -/
theorem strtobool_spec_witness :
    strtobool ("YES".data) = some 1
    ∧ strtobool ("oFf".data) = some 0
    ∧ strtobool ("maybe".data) = none := by
  refine ⟨(strtobool_spec ("YES".data)).1 (by decide),
          (strtobool_spec ("oFf".data)).2.1 (by decide),
          (strtobool_spec ("maybe".data)).2.2 (by decide) (by decide)⟩

/-! ### C2 / C10 : command-prefix splitting (`get_full_command`, utils.py) -/

/-- Python whitespace test for `str.split` with no separator. -/
def isSpaceChar (c : Char) : Bool :=
  c == ' ' || c == '\t' || c == '\n' || c == '\r' || c == '\x0b' || c == '\x0c'

/-- Python `s.split(maxsplit=1)`: skip leading whitespace; if nothing is left
return `[]`; otherwise the first whitespace-free token, followed by the
remainder with its own leading whitespace stripped (omitted when empty). -/
def pySplit1 (s : List Char) : List (List Char) :=
  let s1 := s.dropWhile isSpaceChar
  if s1.isEmpty then []
  else
    let tok := s1.takeWhile (fun c => !isSpaceChar c)
    let rest := (s1.dropWhile (fun c => !isSpaceChar c)).dropWhile isSpaceChar
    if rest.isEmpty then [tok] else [tok, rest]

/-- The per-prefix guard of the loop in `get_full_command`:
`message.text and len(message.text) > len(prefix) and message.text.startswith(prefix)`. -/
def matchesPref (text p : List Char) : Bool :=
  !text.isEmpty && decide (p.length < text.length) && strPref p text

/-- The `for prefix in prefixes: ... break / else:` loop of `get_full_command`:
the first registered prefix satisfying the guard, if any. -/
def loopPrefs : List (List Char) → List Char → Option (List Char)
  | [], _ => none
  | p :: ps, text => if matchesPref text p then some p else loopPrefs ps text

/-- `get_full_command` from `teagram/utils.py`, with the registered prefix list
passed explicitly.  `none` models the uncaught `ValueError` that Python raises
when the text after the prefix is pure whitespace (unpacking an empty split);
otherwise the result is `(prefixes[0], command.lower(), args[-1] if args else "")`,
and the empty triple when no prefix matches or the text is empty. -/
def get_full_command (prefixes : List (List Char)) (text : List Char) :
    Option (List Char × List Char × List Char) :=
  match loopPrefs prefixes text with
  | none => some ([], [], [])
  | some p =>
    match pySplit1 (text.drop p.length) with
    | [] => none
    | cmd :: args => some (prefixes.headD [], toLowerStr cmd, args.getLastD [])

theorem loopPrefs_empty_text (prefixes : List (List Char)) :
    loopPrefs prefixes [] = none := by
  induction prefixes with
  | nil => rfl
  | cons p ps ih => simp [loopPrefs, matchesPref, ih]

/-- C2: with prefixes `[".", "!"]` and text `".ping arg1 arg2"` the split is
`(".", "ping", "arg1 arg2")`; the loop takes the first registered prefix whose
guard holds (`List.find?` order); when no registered prefix matches, or the
text is empty, the result is the empty triple. -/
theorem get_full_command_spec :
    get_full_command [(".".data), ("!".data)] (".ping arg1 arg2".data)
        = some ((".".data), ("ping".data), ("arg1 arg2".data))
    ∧ (∀ prefixes text, loopPrefs prefixes text = List.find? (fun p => matchesPref text p) prefixes)
    ∧ (∀ prefixes text, loopPrefs prefixes text = none →
        get_full_command prefixes text = some ([], [], []))
    ∧ (∀ prefixes, get_full_command prefixes [] = some ([], [], [])) := by
  refine ⟨by decide, fun prefixes text => ?_, fun prefixes text h => ?_, fun prefixes => ?_⟩
  · induction prefixes with
    | nil => rfl
    | cons p ps ih => by_cases h : matchesPref text p <;> simp [loopPrefs, List.find?, h, ih]
  · simp [get_full_command, h]
  · simp [get_full_command, loopPrefs_empty_text]

/-- C2 witness: the no-match branch of `get_full_command_spec` at a concrete
prefix list and text. -/
theorem get_full_command_spec_witness :
    get_full_command [(".".data)] ("hello".data) = some ([], [], []) :=
  get_full_command_spec.2.2.1 [(".".data)] ("hello".data) (by decide)

/-- C10 counterexample: the text `"!x"` equals the registered prefix `"!x"`,
yet the result is not the empty triple, because the shorter registered prefix
`"!"` matches first. -/
theorem prefix_equal_text_counterexample :
    get_full_command [("!".data), ("!x".data)] ("!x".data)
      = some (("!".data), ("x".data), []) := by decide

/-- C10 (amended): a prefix only matches when the text is strictly longer than
it; and a message whose text equals a registered prefix yields the empty triple
provided no strictly shorter registered prefix starts the text. -/
theorem prefix_equal_text_spec :
    (∀ p text, text.length ≤ p.length → matchesPref text p = false)
    ∧ (∀ prefixes p, p ∈ prefixes →
        (∀ q ∈ prefixes, strPref q p = true → ¬ q.length < p.length) →
        get_full_command prefixes p = some ([], [], [])) := by
  constructor
  · intro p text h
    simp only [matchesPref, Bool.and_eq_false_iff]
    left
    right
    simpa using Nat.not_lt.mpr h
  · intro prefixes p hmem hq
    clear hmem
    have hnone : loopPrefs prefixes p = none := by
      induction prefixes with
      | nil => rfl
      | cons q qs ih =>
        have hmq : matchesPref p q = false := by
          by_cases hs : strPref q p = true
          · have := hq q (List.mem_cons_self q qs) hs
            simp [matchesPref, this]
          · simp only [Bool.not_eq_true] at hs
            simp [matchesPref, hs]
        simp only [loopPrefs, hmq, Bool.false_eq_true, if_false]
        exact ih (fun q hqmem hqs => hq q (List.mem_cons_of_mem _ hqmem) hqs)
    simp [get_full_command, hnone]

/-- C10 witness: `prefix_equal_text_spec` at the concrete prefix list
`[".", "!"]` and the text `"."`. -/
theorem prefix_equal_text_spec_witness :
    matchesPref (".".data) (".".data) = false
    ∧ get_full_command [(".".data), ("!".data)] (".".data) = some ([], [], []) :=
  ⟨prefix_equal_text_spec.1 (".".data) (".".data) (by decide),
   prefix_equal_text_spec.2 [(".".data), ("!".data)] (".".data) (by decide)
     (by decide)⟩

/-! ### C3 : token scraping in `TokenManager._create_bot` (token_manager.py) -/

/-- The literal `<code>` delimiter of the primary pattern. -/
def openTagChars : List Char := "<code>".data

/-- The literal `</code>` delimiter of the primary pattern. -/
def closeTagChars : List Char := "</code>".data

/-- Lazy body of `(?<=<code>)(.*?)(?=</code>)` once the look-behind matched:
the lazy group tries the `(?=</code>)` look-ahead first (shortest match) and
otherwise consumes one character with `.` — which in Python's default mode
does NOT match a newline — so the result is the text before the first
following `</code>`, and `none` when a newline or the end of the text comes
before any closing tag. -/
def upToClose : List Char → Option (List Char)
  | [] => none
  | c :: cs =>
    if strPref closeTagChars (c :: cs) then some []
    else if c = '\n' then none
    else (upToClose cs).map (fun m => c :: m)

/-- `re.search(r"(?<=<code>)(.*?)(?=</code>)", text)`: scan left to right for a
`<code>` followed by a `</code>` with no newline in between; the group is the
(lazily shortest) text between them. -/
def scrapePrimary : List Char → Option (List Char)
  | [] => none
  | c :: cs =>
    if strPref openTagChars (c :: cs) then
      match upToClose (cs.drop 5) with
      | some m => some m
      | none => scrapePrimary cs
    else scrapePrimary cs

/-- The character class `[0-9a-zA-Z_-]` of the fallback pattern. -/
def isTokenChar (c : Char) : Bool :=
  c.isDigit || c.isAlpha || c == '_' || c == '-'

/-- Matching `\d{1,}:[0-9a-zA-Z_-]{35}` anchored at the current position: the
greedy digit run, a colon, then exactly 35 class characters (more text may
follow). -/
def matchTokenAt (s : List Char) : Option (List Char) :=
  let ds := s.takeWhile Char.isDigit
  if ds.isEmpty then none
  else
    match s.drop ds.length with
    | ':' :: rest =>
      if (rest.take 35).length == 35 && (rest.take 35).all isTokenChar then
        some (ds ++ ':' :: rest.take 35)
      else none
    | _ => none

/-- `re.search(r"\d{1,}:[0-9a-zA-Z_-]{35}", text)`: leftmost match of the raw
token pattern. -/
def scrapeFallback : List Char → Option (List Char)
  | [] => none
  | c :: cs =>
    match matchTokenAt (c :: cs) with
    | some m => some m
    | none => scrapeFallback cs

/-- Lines 60-68 of `_create_bot`: try the HTML-delimited pattern first, fall
back to the raw token pattern, and report no token (`None`) when both fail. -/
def scrapeReplyToken (text : List Char) : Option (List Char) :=
  match scrapePrimary text with
  | some m => some m
  | none => scrapeFallback text

/-- Shape of a raw-pattern match: a nonempty digit run, a colon, then exactly
35 characters from `[0-9a-zA-Z_-]`. -/
def fallbackShape (m : List Char) : Bool :=
  let ds := m.takeWhile Char.isDigit
  !ds.isEmpty &&
    (match m.drop ds.length with
     | ':' :: rest => rest.length == 35 && rest.all isTokenChar
     | _ => false)

theorem takeWhile_digits_append {ds : List Char} (r : List Char)
    (h : ∀ c ∈ ds, Char.isDigit c = true) :
    (ds ++ ':' :: r).takeWhile Char.isDigit = ds := by
  induction ds with
  | nil => simp [List.takeWhile]
  | cons d t ih =>
    have hd : Char.isDigit d = true := h d (List.mem_cons_self d t)
    simp only [List.cons_append, List.takeWhile_cons, hd, if_true]
    rw [ih (fun c hc => h c (List.mem_cons_of_mem _ hc))]

theorem matchTokenAt_shape {s m : List Char} (h : matchTokenAt s = some m) :
    fallbackShape m = true := by
  simp only [matchTokenAt] at h
  split at h
  · exact absurd h (by simp)
  next hds =>
    split at h
    next rest heq =>
      split at h
      next hcond =>
        obtain rfl := Option.some.inj h
        have hall : ∀ x ∈ s.takeWhile Char.isDigit, Char.isDigit x = true :=
          fun x hx => List.mem_takeWhile_imp hx
        simp only [fallbackShape]
        rw [takeWhile_digits_append _ hall, List.drop_left]
        simp only [Bool.and_eq_true]
        exact ⟨by simpa using hds, by simpa using hcond⟩
      next hcond => exact absurd h (by simp)
    next => exact absurd h (by simp)

theorem scrapeFallback_shape {s m : List Char} (h : scrapeFallback s = some m) :
    fallbackShape m = true := by
  induction s with
  | nil => simp [scrapeFallback] at h
  | cons c cs ih =>
    simp only [scrapeFallback] at h
    cases hm : matchTokenAt (c :: cs) with
    | some t => rw [hm] at h; exact Option.some.inj h ▸ matchTokenAt_shape hm
    | none => rw [hm] at h; exact ih h

theorem scrapeFallback_append_ne {a b m : List Char} (h : matchTokenAt b = some m) :
    scrapeFallback (a ++ b) ≠ none := by
  induction a with
  | nil =>
    cases b with
    | nil => simp [matchTokenAt] at h
    | cons c cs =>
      simp only [List.nil_append, scrapeFallback, h]
      exact fun hc => Option.noConfusion hc
  | cons c a ih =>
    simp only [List.cons_append, scrapeFallback]
    cases hm : matchTokenAt (c :: (a ++ b)) with
    | some t => exact fun hc => Option.noConfusion hc
    | none => exact ih

theorem upToClose_append_ne {u : List Char} (v : List Char) (hu : '\n' ∉ u) :
    upToClose (u ++ (closeTagChars ++ v)) ≠ none := by
  induction u with
  | nil =>
    obtain ⟨c, cs, hcc⟩ : ∃ c cs, closeTagChars ++ v = c :: cs := ⟨'<', _, rfl⟩
    rw [List.nil_append, hcc]
    have hp : strPref closeTagChars (c :: cs) = true := by
      rw [← hcc]; exact strPref_self_append _ _
    simp [upToClose, hp]
  | cons c u ih =>
    have hc : ¬ c = '\n' := by
      intro he
      subst he
      exact hu (List.mem_cons_self _ _)
    have hu2 : '\n' ∉ u := fun hmem => hu (List.mem_cons_of_mem c hmem)
    rw [List.cons_append]
    by_cases hp : strPref closeTagChars (c :: (u ++ (closeTagChars ++ v))) = true
    · simp [upToClose, hp]
    · simp only [Bool.not_eq_true] at hp
      simp only [upToClose, hp, Bool.false_eq_true, if_false, hc]
      cases hval : upToClose (u ++ (closeTagChars ++ v)) with
      | some t => simp
      | none => exact absurd hval (ih hu2)

theorem scrapePrimary_append_ne (a : List Char) {x : List Char} (v : List Char)
    (hx : '\n' ∉ x) :
    scrapePrimary (a ++ (openTagChars ++ (x ++ (closeTagChars ++ v)))) ≠ none := by
  induction a with
  | nil =>
    rw [List.nil_append]
    obtain ⟨c, cs, hcc⟩ :
        ∃ c cs, openTagChars ++ (x ++ (closeTagChars ++ v)) = c :: cs := ⟨'<', _, rfl⟩
    have hcs : cs = ("code>".data) ++ (x ++ (closeTagChars ++ v)) := by
      have : openTagChars ++ (x ++ (closeTagChars ++ v))
          = '<' :: (("code>".data) ++ (x ++ (closeTagChars ++ v))) := rfl
      rw [this] at hcc
      exact ((List.cons.inj hcc).2).symm
    have hp : strPref openTagChars (c :: cs) = true := by
      rw [← hcc]; exact strPref_self_append _ _
    have hdrop : cs.drop 5 = x ++ (closeTagChars ++ v) := by
      rw [hcs]
      have h5 : (5 : Nat) = ("code>".data).length := by decide
      rw [h5, List.drop_left]
    rw [hcc]
    simp only [scrapePrimary, hp, if_true, hdrop]
    cases hval : upToClose (x ++ (closeTagChars ++ v)) with
    | some t => simp
    | none => exact absurd hval (upToClose_append_ne v hx)
  | cons c a ih =>
    rw [List.cons_append]
    by_cases hp : strPref openTagChars (c :: (a ++ (openTagChars ++ (x ++ (closeTagChars ++ v))))) = true
    · simp only [scrapePrimary, hp, if_true]
      cases hval : upToClose ((a ++ (openTagChars ++ (x ++ (closeTagChars ++ v)))).drop 5) with
      | some t => simp
      | none => exact ih
    · simp only [Bool.not_eq_true] at hp
      simp only [scrapePrimary, hp, Bool.false_eq_true, if_false]
      exact ih

/-- C3: `_create_bot` token scraping.  The primary HTML-delimited pattern is
tried first and its match returned; only when it fails is the raw fallback
pattern tried; when both fail the result is `none`.  Every fallback match has
the shape digits-colon-35-class-chars, the primary pattern succeeds on any text
containing `<code>...</code>` with no newline inside the group (Python's
default-mode dot does not match a newline, so a tag pair spanning a newline
does not match — see the last conjunct), the fallback succeeds on any text
containing a raw token, and the spec's two concrete examples scrape as
stated. -/
theorem create_bot_token_scrape :
    (∀ text m, scrapePrimary text = some m → scrapeReplyToken text = some m)
    ∧ (∀ text, scrapePrimary text = none → scrapeReplyToken text = scrapeFallback text)
    ∧ (∀ text, scrapePrimary text = none → scrapeFallback text = none →
        scrapeReplyToken text = none)
    ∧ (∀ text m, scrapeFallback text = some m → fallbackShape m = true)
    ∧ (∀ a x v, '\n' ∉ x →
        scrapePrimary (a ++ (openTagChars ++ (x ++ (closeTagChars ++ v)))) ≠ none)
    ∧ (∀ a b m, matchTokenAt b = some m → scrapeFallback (a ++ b) ≠ none)
    ∧ scrapeReplyToken ("Done! <code>123456:ABCDEFGHIJKLMNOPQRSTUVWXYZabcdef012</code>".data)
        = some ("123456:ABCDEFGHIJKLMNOPQRSTUVWXYZabcdef012".data)
    ∧ scrapeReplyToken ("Done! 123456:ABCDEFGHIJKLMNOPQRSTUVWXYZabcdef012".data)
        = some ("123456:ABCDEFGHIJKLMNOPQRSTUVWXYZabcdef012".data)
    ∧ scrapeReplyToken ("<code>a\nb</code>".data) = none := by
  refine ⟨fun text m h => ?_, fun text h => ?_, fun text h1 h2 => ?_,
          fun text m h => scrapeFallback_shape h,
          fun a x v hx => scrapePrimary_append_ne a v hx,
          fun a b m h => scrapeFallback_append_ne h, by decide, by decide, by decide⟩
  · simp [scrapeReplyToken, h]
  · simp [scrapeReplyToken, h]
  · simp [scrapeReplyToken, h1, h2]

/-- C3 witness: `create_bot_token_scrape` applied at concrete reply texts (a
text matched only by the fallback pattern, and one matched by neither). -/
theorem create_bot_token_scrape_witness :
    scrapeReplyToken ("ok 12:ABCDEFGHIJKLMNOPQRSTUVWXYZabcdef0123".data)
        = scrapeFallback ("ok 12:ABCDEFGHIJKLMNOPQRSTUVWXYZabcdef0123".data)
    ∧ scrapeReplyToken ("no token here".data) = none
    ∧ scrapePrimary (("ok ".data) ++ (openTagChars ++ (("tok".data)
        ++ (closeTagChars ++ ("!".data))))) ≠ none :=
  ⟨create_bot_token_scrape.2.1 ("ok 12:ABCDEFGHIJKLMNOPQRSTUVWXYZabcdef0123".data) (by decide),
   create_bot_token_scrape.2.2.1 ("no token here".data) (by decide) (by decide),
   create_bot_token_scrape.2.2.2.2.1 ("ok ".data) ("tok".data) ("!".data) (by decide)⟩

/-! ### C4 : button-grid scan in `TokenManager._revoke_token` (token_manager.py) -/

/-- `re.search(r"@teagram_[0-9a-zA-Z]{6}_bot", label)` anchored at the current
position: the literal head, exactly six alphanumerics, then the literal tail. -/
def botLabelAt (s : List Char) : Bool :=
  strPref ("@teagram_".data) s &&
    (((s.drop 9).take 6).length == 6 &&
     ((s.drop 9).take 6).all Char.isAlphanum &&
     strPref ("_bot".data) ((s.drop 9).drop 6))

/-- The unanchored search over the whole button label. -/
def containsBotLabel : List Char → Bool
  | [] => false
  | c :: cs => botLabelAt (c :: cs) || containsBotLabel cs

/-- Result of the button-grid loop of `_revoke_token`. -/
inductive RevokeScan
  | clicked (label : List Char)
  | returnedFalse
  | fellThrough
deriving DecidableEq

/-- The `for row in rows: for button in row.buttons: ... / if found: break /
else: return False` loop of `_revoke_token`, over the grid of button labels.
In the source the `else` is attached to `if found:`, so after the first row is
scanned the loop either breaks (a match was clicked) or returns `False`; rows
after the first are never examined.  An empty grid falls through to the
scraping code below the loop without clicking anything. -/
def revoke_button_scan (rows : List (List (List Char))) : RevokeScan :=
  match rows with
  | [] => .fellThrough
  | row :: _ =>
    match row.find? containsBotLabel with
    | some label => .clicked label
    | none => .returnedFalse

/-- Modelled from the spec: the scan the spec describes, which selects the
first button matching `@teagram_<6 alnum>_bot` anywhere in the grid and fails
only when no button of any row matches. -/
def gridFirstBot : List (List (List Char)) → Option (List Char)
  | [] => none
  | row :: rest =>
    match row.find? containsBotLabel with
    | some label => some label
    | none => gridFirstBot rest

/-- C4: failing input for the claim.  The grid
`[["Cancel"], ["@teagram_abc123_bot"]]` contains a matching button in its
second row, so the claimed behaviour (`gridFirstBot`) selects it, but the code
(`revoke_button_scan`) returns the failure sentinel `False` after scanning only
the first row. -/
theorem revoke_scan_first_row_only :
    revoke_button_scan [[("Cancel".data)], [("@teagram_abc123_bot".data)]]
        = RevokeScan.returnedFalse
    ∧ gridFirstBot [[("Cancel".data)], [("@teagram_abc123_bot".data)]]
        = some ("@teagram_abc123_bot".data)
    ∧ containsBotLabel ("@teagram_abc123_bot".data) = true := by
  refine ⟨by decide, by decide, by decide⟩

/-! ### C9 : `ch_attr_` callback data round-trip (config.py) -/

/-- Python `data.replace('ch_attr_', '')`: remove every occurrence of the
pattern, scanning left to right and continuing after each removal. -/
def replaceChAttr (s : List Char) : List Char :=
  match s with
  | [] => []
  | c :: cs =>
    if strPref ("ch_attr_".data) (c :: cs) then replaceChAttr (cs.drop 7)
    else c :: replaceChAttr cs
termination_by s.length
decreasing_by
  all_goals simp only [List.length_cons, List.length_drop]
  all_goals omega

/-- Python `s.split(sep)` for a one-character separator. -/
def splitOnChar (sep : Char) : List Char → List (List Char)
  | [] => [[]]
  | c :: cs =>
    if c = sep then [] :: splitOnChar sep cs
    else
      match splitOnChar sep cs with
      | [] => [[c]]
      | h :: t => (c :: h) :: t

/-- The parse in `change_attribute_callback_handler`:
`data.replace('ch_attr_', '').split('_')`, then `data[0]` and `data[1]`;
`none` models the `IndexError` when fewer than two fields result. -/
def parse_ch_attr (data : List Char) : Option (List Char × List Char) :=
  match splitOnChar '_' (replaceChAttr data) with
  | m :: a :: _ => some (m, a)
  | _ => none

/-- The encoder in `answer_callback_handler`:
`f'ch_attr_{mod.name.split(".")[-1]}_{name}'`, with `modName` already the last
dot-component of the module name. -/
def encodeChAttr (modName attr : List Char) : List Char :=
  ("ch_attr_".data) ++ modName ++ '_' :: attr

/-- First underscore-separated chunk of a string. -/
def firstChunk (s : List Char) : List Char :=
  s.takeWhile (fun c => c != '_')

theorem replaceChAttr_nil : replaceChAttr [] = [] := by
  simp [replaceChAttr]

theorem replaceChAttr_cons_neg {c : Char} {cs : List Char}
    (h : strPref ("ch_attr_".data) (c :: cs) = false) :
    replaceChAttr (c :: cs) = c :: replaceChAttr cs := by
  rw [replaceChAttr]
  simp [h]

theorem replaceChAttr_of_not_occurs {s : List Char}
    (h : occursIn ("ch_attr_".data) s = false) : replaceChAttr s = s := by
  induction s with
  | nil => exact replaceChAttr_nil
  | cons c cs ih =>
    simp only [occursIn, Bool.or_eq_false_iff] at h
    rw [replaceChAttr_cons_neg h.1, ih h.2]

theorem strPref_count_le {p s : List Char} (a : Char) (h : strPref p s = true) :
    p.count a ≤ s.count a := by
  induction p generalizing s with
  | nil => simp
  | cons b bs ih =>
    cases s with
    | nil => simp [strPref] at h
    | cons c cs =>
      simp only [strPref, Bool.and_eq_true, beq_iff_eq] at h
      have hle := ih h.2
      rw [h.1]
      simp only [List.count_cons]
      omega

theorem count_le_count_cons (a c : Char) (cs : List Char) :
    cs.count a ≤ (c :: cs).count a := by
  simp only [List.count_cons]
  split <;> omega

theorem occursIn_pat_false_of_count {s : List Char}
    (h : s.count '_' < 2) : occursIn ("ch_attr_".data) s = false := by
  induction s with
  | nil => decide
  | cons c cs ih =>
    show (strPref ("ch_attr_".data) (c :: cs) || occursIn ("ch_attr_".data) cs) = false
    have h1 : strPref ("ch_attr_".data) (c :: cs) = false := by
      by_contra hp
      simp only [Bool.not_eq_false] at hp
      have hle := strPref_count_le '_' hp
      have h2 : ("ch_attr_".data).count '_' = 2 := by decide
      have hle2 : 2 ≤ (c :: cs).count '_' := le_trans (le_of_eq h2.symm) hle
      omega
    have h3 : occursIn ("ch_attr_".data) cs = false := by
      refine ih ?_
      have hcc := count_le_count_cons '_' c cs
      omega
    rw [h1, h3]
    rfl

theorem replaceChAttr_head (t : List Char) :
    replaceChAttr (("ch_attr_".data) ++ t) = replaceChAttr t := by
  have hcc : ("ch_attr_".data) ++ t = 'c' :: (("h_attr_".data) ++ t) := rfl
  have hp : strPref ("ch_attr_".data) ('c' :: (("h_attr_".data) ++ t)) = true := by
    rw [← hcc]; exact strPref_self_append _ _
  rw [hcc, replaceChAttr]
  simp only [hp, if_true]
  have h7 : (("h_attr_".data) ++ t).drop 7 = t := by
    have hl : (7 : Nat) = ("h_attr_".data).length := by decide
    rw [hl, List.drop_left]
  rw [h7]

theorem splitOnChar_ne_nil (sep : Char) (s : List Char) : splitOnChar sep s ≠ [] := by
  cases s with
  | nil => simp [splitOnChar]
  | cons c cs =>
    by_cases h : c = sep
    · simp [splitOnChar, h]
    · simp only [splitOnChar, h, if_false]
      cases splitOnChar sep cs <;> simp

theorem splitOnChar_head (sep : Char) (s : List Char) :
    ∃ t, splitOnChar sep s = (s.takeWhile (fun c => c != sep)) :: t := by
  induction s with
  | nil => exact ⟨[], rfl⟩
  | cons c cs ih =>
    by_cases h : c = sep
    · subst h
      refine ⟨splitOnChar c cs, ?_⟩
      simp [splitOnChar, List.takeWhile_cons]
    · obtain ⟨t, ht⟩ := ih
      refine ⟨t, ?_⟩
      simp only [splitOnChar, h, if_false, ht, List.takeWhile_cons]
      have hb : (c != sep) = true := by simpa using h
      simp [hb]

theorem splitOnChar_append_sep {sep : Char} {m : List Char} (t : List Char)
    (h : sep ∉ m) : splitOnChar sep (m ++ sep :: t) = m :: splitOnChar sep t := by
  induction m with
  | nil => simp [splitOnChar]
  | cons c cs ih =>
    have hc : c ≠ sep := fun hceq => h (hceq ▸ List.mem_cons_self c cs)
    have hcs : sep ∉ cs := fun hmem => h (List.mem_cons_of_mem c hmem)
    simp only [List.cons_append, splitOnChar, hc, if_false, List.append_eq, ih hcs]

theorem splitOnChar_no_sep {sep : Char} {s : List Char} (h : sep ∉ s) :
    splitOnChar sep s = [s] := by
  induction s with
  | nil => rfl
  | cons c cs ih =>
    have hc : c ≠ sep := fun hceq => h (hceq ▸ List.mem_cons_self c cs)
    have hcs : sep ∉ cs := fun hmem => h (List.mem_cons_of_mem c hmem)
    simp [splitOnChar, hc, ih hcs]

theorem splitOnChar_len_two {sep : Char} {s : List Char} (h : sep ∈ s) :
    2 ≤ (splitOnChar sep s).length := by
  induction s with
  | nil => simp at h
  | cons c cs ih =>
    by_cases hc : c = sep
    · have h2 : 1 ≤ (splitOnChar sep cs).length := by
        cases hsp : splitOnChar sep cs with
        | nil => exact absurd hsp (splitOnChar_ne_nil sep cs)
        | cons a b => simp
      rw [show splitOnChar sep (c :: cs) = [] :: splitOnChar sep cs from by
        simp [splitOnChar, hc]]
      simp only [List.length_cons]
      omega
    · have hmem : sep ∈ cs := by
        cases List.mem_cons.mp h with
        | inl heq => exact absurd heq.symm hc
        | inr hm => exact hm
      have h2 := ih hmem
      simp only [splitOnChar, hc, if_false]
      cases hsp : splitOnChar sep cs with
      | nil => exact absurd hsp (splitOnChar_ne_nil sep cs)
      | cons a b =>
        rw [hsp] at h2
        simpa using h2

theorem takeWhile_append_of_mem {m : List Char} (t : List Char) (h : '_' ∈ m) :
    (m ++ t).takeWhile (fun c => c != '_') = m.takeWhile (fun c => c != '_') := by
  induction m with
  | nil => simp at h
  | cons c cs ih =>
    by_cases hc : c = '_'
    · subst hc
      simp [List.takeWhile_cons]
    · have hmem : '_' ∈ cs := by
        cases List.mem_cons.mp h with
        | inl heq => exact absurd heq.symm hc
        | inr hm => exact hm
      have hb : (c != '_') = true := by simpa using hc
      simp [List.cons_append, List.takeWhile_cons, hb, ih hmem]

theorem encode_split (m a : List Char)
    (hocc : occursIn ("ch_attr_".data) (m ++ '_' :: a) = false) :
    replaceChAttr (encodeChAttr m a) = m ++ '_' :: a := by
  have h1 : encodeChAttr m a = ("ch_attr_".data) ++ (m ++ '_' :: a) := by
    simp [encodeChAttr, List.append_assoc]
  rw [h1, replaceChAttr_head, replaceChAttr_of_not_occurs hocc]

/-- C9 (amended): the pair encoded as `ch_attr_<module>_<attribute>` is
recovered exactly when neither name contains an underscore; when the module
name is underscore-free but the attribute is not, the parsed module is exact
and the parsed attribute is the attribute's first underscore-chunk (a strict
truncation of it); when the module name contains an underscore, the parsed
module is the module's first underscore-chunk (a strict truncation of the
module — the parsed attribute then comes from inside the module, so the
round-trip fails).  The occursIn hypotheses rule out names that themselves
contain the literal `ch_attr_`, which `data.replace` would also strip. -/
theorem ch_attr_roundtrip :
    (∀ m a, '_' ∉ m → '_' ∉ a →
        parse_ch_attr (encodeChAttr m a) = some (m, a))
    ∧ (∀ m a, occursIn ("ch_attr_".data) (m ++ '_' :: a) = false → '_' ∉ m →
        parse_ch_attr (encodeChAttr m a) = some (m, firstChunk a)
        ∧ a = firstChunk a ++ a.dropWhile (fun c => c != '_')
        ∧ ('_' ∈ a → firstChunk a ≠ a))
    ∧ (∀ m a, occursIn ("ch_attr_".data) (m ++ '_' :: a) = false → '_' ∈ m →
        (parse_ch_attr (encodeChAttr m a)).map Prod.fst = some (firstChunk m)
        ∧ m = firstChunk m ++ m.dropWhile (fun c => c != '_')
        ∧ firstChunk m ≠ m) := by
  refine ⟨fun m a hm ha => ?_, fun m a hocc hm => ?_, fun m a hocc hm => ?_⟩
  · have hm0 : m.count '_' = 0 := List.count_eq_zero.mpr hm
    have ha0 : a.count '_' = 0 := List.count_eq_zero.mpr ha
    have hocc : occursIn ("ch_attr_".data) (m ++ '_' :: a) = false := by
      refine occursIn_pat_false_of_count ?_
      rw [List.count_append, List.count_cons, hm0, ha0]
      simp
    have hrep := encode_split m a hocc
    have hsplit : splitOnChar '_' (m ++ '_' :: a) = [m, a] := by
      rw [splitOnChar_append_sep a hm, splitOnChar_no_sep ha]
    unfold parse_ch_attr
    rw [hrep, hsplit]
  · have hrep := encode_split m a hocc
    obtain ⟨t, ht⟩ := splitOnChar_head '_' a
    have hsplit : splitOnChar '_' (m ++ '_' :: a) = m :: (firstChunk a) :: t := by
      rw [splitOnChar_append_sep a hm, ht]; rfl
    refine ⟨?_, by simp [firstChunk], fun hmem heq => ?_⟩
    · unfold parse_ch_attr
      rw [hrep, hsplit]
    · have h1 : '_' ∈ a.takeWhile (fun c => c != '_') := by
        rw [show a.takeWhile (fun c => c != '_') = firstChunk a from rfl, heq]
        exact hmem
      have h2 := List.mem_takeWhile_imp h1
      simp at h2
  · have hrep := encode_split m a hocc
    obtain ⟨t, ht⟩ := splitOnChar_head '_' (m ++ '_' :: a)
    have hhead : (m ++ '_' :: a).takeWhile (fun c => c != '_') = firstChunk m :=
      takeWhile_append_of_mem ('_' :: a) hm
    have hlen : 2 ≤ (splitOnChar '_' (m ++ '_' :: a)).length :=
      splitOnChar_len_two (List.mem_append.mpr (Or.inl hm))
    rw [ht] at hlen
    cases t with
    | nil => simp at hlen
    | cons b t2 =>
      refine ⟨?_, by simp [firstChunk], fun heq => ?_⟩
      · unfold parse_ch_attr
        rw [hrep, ht, hhead]
        rfl
      · have h1 : '_' ∈ m.takeWhile (fun c => c != '_') := by
          rw [show m.takeWhile (fun c => c != '_') = firstChunk m from rfl, heq]
          exact hm
        have h2 := List.mem_takeWhile_imp h1
        simp at h2

/-- C9 counterexample: with module name `a_b` (containing an underscore) and
attribute `c`, the parse yields `("a", "b")`; the parsed attribute `"b"` is
not a prefix of the encoded attribute `"c"`, so the claimed
truncated-prefix relation between parsed and encoded names fails. -/
theorem ch_attr_roundtrip_counterexample :
    parse_ch_attr (encodeChAttr ("a_b".data) ("c".data))
        = some (("a".data), ("b".data))
    ∧ strPref ("b".data) ("c".data) = false := by
  constructor
  · have hocc : occursIn ("ch_attr_".data) (("a_b".data) ++ '_' :: ("c".data)) = false := by
      decide
    have hrep := encode_split ("a_b".data) ("c".data) hocc
    unfold parse_ch_attr
    rw [hrep]
    decide
  · decide

/-- C9 witness: `ch_attr_roundtrip` applied at concrete module/attribute
names for each of its three clauses. -/
theorem ch_attr_roundtrip_witness :
    parse_ch_attr (encodeChAttr ("mod".data) ("attr".data))
        = some (("mod".data), ("attr".data))
    ∧ parse_ch_attr (encodeChAttr ("mod".data) ("api_key".data))
        = some (("mod".data), firstChunk ("api_key".data))
    ∧ (parse_ch_attr (encodeChAttr ("a_x".data) ("c".data))).map Prod.fst
        = some (firstChunk ("a_x".data)) :=
  ⟨ch_attr_roundtrip.1 ("mod".data) ("attr".data) (by decide) (by decide),
   (ch_attr_roundtrip.2.1 ("mod".data) ("api_key".data) (by decide) (by decide)).1,
   (ch_attr_roundtrip.2.2 ("a_x".data) ("c".data) (by decide) (by decide)).1⟩

/-! ### C5 / C6 : config-UI callback handlers (config.py)

The handlers run against live Python objects (the plugin graph, the aiogram
bot, the reflection scan of `get_attrs`).  The embedding keeps the state the
claims are about — `pending`, `pending_id`, `pending_module`, the shared
`bot.cfg` map, the currently referenced config descriptor and the persistent
store — and passes the reflection results and fresh random ids in as inputs.
Message rendering is represented by an `editMessage` action; `call.answer`
carries its exact text. -/

/-- A dynamically typed value as the config module observes it. -/
inductive PyVal
  | pyNone
  | pyBool (b : Bool)
  | pyInt (n : Int)
  | pyStr (s : List Char)
deriving DecidableEq

/-- The parts of an aiogram `CallbackQuery` the handlers read. -/
structure Call where
  fromUser : Int
  data : List Char
deriving DecidableEq

/-- One entry of the shared `bot.cfg` pending-edit map
(`{'cfg': ..., 'attr': attribute, 'mod': module}`; the `cfg` descriptor
reference is identified by the owning module's name). -/
structure PendEntry where
  attr : List Char
  modName : List Char
deriving DecidableEq

/-- Externally visible effects of a handler. -/
inductive UIAction
  | answer (text : List Char)
  | editMessage
deriving DecidableEq

/-- The mutable state of a `ConfigMod` instance: the pending-edit triple, the
shared `bot.cfg` map, the currently referenced config descriptor
(`self.config`, as attribute-to-value entries), the persistent store
(`self.config_db`, keyed by module name and attribute — modelled from the
spec's `set(namespace, key, value)` semantics) and `self._def`. -/
structure CfgState where
  pending : Option (List Char)
  pending_id : List Char
  pending_module : Option (List Char)
  botCfg : List (List Char × PendEntry)
  liveConfig : List (List Char × PyVal)
  configDb : List ((List Char × List Char) × PyVal)
  defFlag : Bool
deriving DecidableEq

/-- Environment of a handler: the two localized strings involved and the
config descriptor's `get_default` (modelled from the spec: the owning
descriptor maps an attribute to its default). -/
structure Env where
  noowner : List Char
  chdef : List Char
  get_default : List Char → PyVal

/-- Python truthiness of `self.pending` (`False` initially, an attribute-name
string once an edit is pending; the empty string is falsy). -/
def pendingTruthy (st : CfgState) : Bool :=
  match st.pending with
  | none => false
  | some a => !a.isEmpty

/-- `config_callback_handler` (`send_cfg`): reject non-owners with the
localized message; otherwise edit the menu message, reset a truthy pending
edit to `(False, random_id(50), False)`, scan the modules (the `get_attrs`
side effect on `self.config` is the `loaded` input; `none` when no suitable
module retargets it) and edit the message again. -/
def config_callback_handler (env : Env) (me : Int) (call : Call)
    (freshId : List Char) (loaded : Option (List (List Char × PyVal)))
    (st : CfgState) : CfgState × List UIAction :=
  if call.fromUser ≠ me then (st, [.answer env.noowner])
  else
    let st1 :=
      if pendingTruthy st then
        { st with pending := none, pending_id := freshId, pending_module := none }
      else st
    let st2 :=
      match loaded with
      | some cfg => { st1 with liveConfig := cfg }
      | none => st1
    (st2, [.editMessage, .editMessage])

/-- `answer_callback_handler` (`mod_<name>`): reject non-owners; otherwise
`get_attrs` retargets `self.config` (the `loaded` input) and the attribute
list is rendered. -/
def answer_callback_handler (env : Env) (me : Int) (call : Call)
    (loaded : List (List Char × PyVal)) (st : CfgState) : CfgState × List UIAction :=
  if call.fromUser ≠ me then (st, [.answer env.noowner])
  else ({ st with liveConfig := loaded }, [.editMessage])

/-- `change_attribute_callback_handler` (`ch_attr_<module>_<attribute>`):
reject non-owners; otherwise parse the callback data (an `IndexError` on
fewer than two fields is `none`), record the pending triple with
`random_id(3).lower()` as correlation id, store the entry in the shared
`bot.cfg` map and render the edit menu. -/
def change_attribute_callback_handler (env : Env) (me : Int) (call : Call)
    (loaded : List (List Char × PyVal)) (freshId3 : List Char)
    (st : CfgState) : Option (CfgState × List UIAction) :=
  if call.fromUser ≠ me then some (st, [.answer env.noowner])
  else
    match parse_ch_attr call.data with
    | none => none
    | some (modName, attr) =>
      let pid := toLowerStr freshId3
      some ({ st with liveConfig := loaded,
                      pending := some attr,
                      pending_module := some modName,
                      pending_id := pid,
                      botCfg := setA st.botCfg pid ⟨attr, modName⟩ },
            [.editMessage])

/-- `_change_callback_handler` (`change...`): reject non-owners; when the data
contains `'def'`, write the pending attribute's default to the live config
entry and to the persistent store under the pending module's name, reset the
pending triple (fresh `random_id(50)`), clear `_def` and answer with the
localized confirmation.  A falsy `pending`/`pending_module` would make the
Python raise inside the descriptor access (`none`); data without `'def'`
does nothing. -/
def change_callback_handler (env : Env) (me : Int) (call : Call)
    (freshId50 : List Char) (st : CfgState) : Option (CfgState × List UIAction) :=
  if call.fromUser ≠ me then some (st, [.answer env.noowner])
  else if occursIn ("def".data) call.data then
    match st.pending, st.pending_module with
    | some attr, some modName =>
      let d := env.get_default attr
      some ({ st with liveConfig := setA st.liveConfig attr d,
                      configDb := setA st.configDb (modName, attr) d,
                      pending := none,
                      pending_id := freshId50,
                      pending_module := none,
                      defFlag := false },
            [.answer env.chdef])
    | _, _ => none
  else some (st, [])

/-- C5: every config-UI callback handler, invoked by a user id different from
the recorded owner id, answers with the localized rejection message and leaves
the state — in particular `pending`, `pending_id`, `pending_module` and the
shared pending-edit map — completely unchanged. -/
theorem owner_check_rejects (env : Env) (me : Int) (call : Call) (st : CfgState)
    (freshId freshId3 freshId50 : List Char)
    (loaded : Option (List (List Char × PyVal))) (loaded2 : List (List Char × PyVal))
    (h : call.fromUser ≠ me) :
    config_callback_handler env me call freshId loaded st = (st, [.answer env.noowner])
    ∧ answer_callback_handler env me call loaded2 st = (st, [.answer env.noowner])
    ∧ change_attribute_callback_handler env me call loaded2 freshId3 st
        = some (st, [.answer env.noowner])
    ∧ change_callback_handler env me call freshId50 st
        = some (st, [.answer env.noowner]) := by
  refine ⟨?_, ?_, ?_, ?_⟩ <;>
    simp [config_callback_handler, answer_callback_handler,
          change_attribute_callback_handler, change_callback_handler, h]

/-- C5 witness: `owner_check_rejects` at a concrete non-owner call. -/
theorem owner_check_rejects_witness :
    config_callback_handler ⟨("noowner".data), ("chdef".data), fun _ => PyVal.pyNone⟩
        2 ⟨1, ("send_cfg".data)⟩ ("r".data) none
        ⟨none, [], none, [], [], [], false⟩
      = (⟨none, [], none, [], [], [], false⟩, [.answer ("noowner".data)])
    ∧ change_callback_handler ⟨("noowner".data), ("chdef".data), fun _ => PyVal.pyNone⟩
        2 ⟨1, ("change_def".data)⟩ ("r".data)
        ⟨none, [], none, [], [], [], false⟩
      = some (⟨none, [], none, [], [], [], false⟩, [.answer ("noowner".data)]) := by
  have h := owner_check_rejects ⟨("noowner".data), ("chdef".data), fun _ => PyVal.pyNone⟩
    2 ⟨1, ("send_cfg".data)⟩ ⟨none, [], none, [], [], [], false⟩
    ("r".data) ("r".data) ("r".data) none [] (by decide)
  have h2 := owner_check_rejects ⟨("noowner".data), ("chdef".data), fun _ => PyVal.pyNone⟩
    2 ⟨1, ("change_def".data)⟩ ⟨none, [], none, [], [], [], false⟩
    ("r".data) ("r".data) ("r".data) none [] (by decide)
  exact ⟨h.1, h2.2.2.2⟩

/-- C6: when the owner triggers the `change_def` callback while an edit is
pending, the handler writes the pending attribute's default (from the config
descriptor) both to the live config entry and to the persistent store under
the pending module's name, clears the pending edit (fresh correlation id,
`_def` cleared), and answers with the localized confirmation; afterwards no
edit is outstanding. -/
theorem change_def_resets (env : Env) (me : Int) (call : Call) (st : CfgState)
    (freshId50 attr modName : List Char)
    (howner : call.fromUser = me)
    (hdef : occursIn ("def".data) call.data = true)
    (hp : st.pending = some attr)
    (hm : st.pending_module = some modName) :
    change_callback_handler env me call freshId50 st
      = some ({ st with liveConfig := setA st.liveConfig attr (env.get_default attr),
                        configDb := setA st.configDb (modName, attr) (env.get_default attr),
                        pending := none,
                        pending_id := freshId50,
                        pending_module := none,
                        defFlag := false }, [.answer env.chdef])
    ∧ (∀ st2 acts, change_callback_handler env me call freshId50 st = some (st2, acts) →
        getA st2.liveConfig attr = some (env.get_default attr)
        ∧ getA st2.configDb (modName, attr) = some (env.get_default attr)
        ∧ st2.pending = none ∧ st2.pending_module = none
        ∧ pendingTruthy st2 = false ∧ st2.defFlag = false
        ∧ acts = [.answer env.chdef]) := by
  have heq : change_callback_handler env me call freshId50 st
      = some ({ st with liveConfig := setA st.liveConfig attr (env.get_default attr),
                        configDb := setA st.configDb (modName, attr) (env.get_default attr),
                        pending := none,
                        pending_id := freshId50,
                        pending_module := none,
                        defFlag := false }, [.answer env.chdef]) := by
    simp [change_callback_handler, howner, hdef, hp, hm]
  refine ⟨heq, fun st2 acts h2 => ?_⟩
  rw [heq] at h2
  obtain ⟨h3, h4⟩ := Prod.mk.injEq .. ▸ Option.some.inj h2
  subst h3
  subst h4
  exact ⟨getA_setA_self _ _ _, getA_setA_self _ _ _, rfl, rfl, rfl, rfl, rfl⟩

/-- C6 witness: `change_def_resets` at a concrete owner call with a pending
edit of attribute `attr` in module `mod`. -/
theorem change_def_resets_witness :
    change_callback_handler ⟨("noowner".data), ("chdef".data), fun _ => PyVal.pyInt 5⟩
        7 ⟨7, ("change_def".data)⟩ ("fresh".data)
        ⟨some ("attr".data), ("old".data), some ("mod".data), [], [], [], true⟩
      = some (⟨none, ("fresh".data), none, [],
              [(("attr".data), PyVal.pyInt 5)],
              [((("mod".data), ("attr".data)), PyVal.pyInt 5)], false⟩,
             [.answer ("chdef".data)]) :=
  (change_def_resets ⟨("noowner".data), ("chdef".data), fun _ => PyVal.pyInt 5⟩
    7 ⟨7, ("change_def".data)⟩
    ⟨some ("attr".data), ("old".data), some ("mod".data), [], [], [], true⟩
    ("fresh".data) ("attr".data) ("mod".data) rfl (by decide) rfl rfl).1

/-! ### C7 : pastebin helper `paste_neko` (utils.py) -/

/-- A parsed JSON value (what `await paste.json()` can deliver). -/
inductive JVal
  | jNull
  | jNum (n : Int)
  | jStr (s : List Char)
  | jObj (fields : List (List Char × JVal))

/-- Python exceptions the result extraction can raise. -/
inductive PyExc
  | keyError
  | typeError
deriving DecidableEq

/-- Python dict lookup (first binding wins, as in a parsed JSON object). -/
def jlookup : List (List Char × JVal) → List Char → Option JVal
  | [], _ => none
  | (k1, v1) :: t, k => if k1 = k then some v1 else jlookup t k

/-- Python subscription `j[k]`: `KeyError` on a missing key, `TypeError` when
`j` is not a dict. -/
def subscript (j : JVal) (k : List Char) : Except PyExc JVal :=
  match j with
  | .jObj fs =>
    match jlookup fs k with
    | some v => .ok v
    | none => .error .keyError
  | _ => .error .typeError

/-- Python f-string rendering of the scalar values relevant here (a dict value
would render as its repr; abridged, no claim depends on it). -/
def pyStr (j : JVal) : List Char :=
  match j with
  | .jStr s => s
  | .jNum n => (toString n).data
  | .jNull => "None".data
  | .jObj _ => "\x7b...\x7d".data

/-- `paste_neko` from `teagram/utils.py`.  `net` is the outcome of the body of
the `try` block (open session, POST, `raise_for_status`, `await paste.json()`):
`.error` for any exception raised there — caught by `except Exception` and
turned into the literal failure string — and `.ok` for the parsed JSON body.
The `else:` block then builds `f"nekobin.com/{result['result']['key']}.py"`
OUTSIDE the `try`, so exceptions of the two subscriptions propagate
(`Except.error`). -/
def paste_neko (net : Except Unit JVal) : Except PyExc (List Char) :=
  match net with
  | .error _ => .ok ("Pasting failed".data)
  | .ok result =>
    match subscript result ("result".data) with
    | .error e => .error e
    | .ok r1 =>
      match subscript r1 ("key".data) with
      | .error e => .error e
      | .ok k => .ok (("nekobin.com/".data) ++ pyStr k ++ (".py".data))

/-- C7 counterexample: a response that parses to the JSON object with no
fields is a malformed response, yet `paste_neko` raises `KeyError` instead of
returning the literal failure string. -/
theorem paste_neko_counterexample :
    paste_neko (.ok (JVal.jObj [])) = .error PyExc.keyError := rfl

/-- C7 (amended): every exception raised inside the HTTP/JSON step (network
failure, HTTP error status, unparseable body) yields the literal failure
string without raising; a parsed body carrying `result.key` yields
`nekobin.com/<key>.py`; but a body that parses and lacks the `result`/`key`
structure makes the extraction raise (`KeyError`/`TypeError`) instead of
returning the failure string. -/
theorem paste_neko_spec :
    (∀ u, paste_neko (.error u) = .ok ("Pasting failed".data))
    ∧ (∀ fs ks s, jlookup fs ("result".data) = some (JVal.jObj ks) →
        jlookup ks ("key".data) = some (JVal.jStr s) →
        paste_neko (.ok (JVal.jObj fs)) = .ok (("nekobin.com/".data) ++ s ++ (".py".data)))
    ∧ (∀ fs, jlookup fs ("result".data) = none →
        paste_neko (.ok (JVal.jObj fs)) = .error PyExc.keyError)
    ∧ (∀ j, (∀ fs, j ≠ JVal.jObj fs) → paste_neko (.ok j) = .error PyExc.typeError) := by
  refine ⟨fun u => rfl, fun fs ks s h1 h2 => ?_, fun fs h1 => ?_, fun j hj => ?_⟩
  · simp [paste_neko, subscript, h1, h2, pyStr]
  · simp [paste_neko, subscript, h1]
  · cases j with
    | jObj fs => exact absurd rfl (hj fs)
    | jNull => rfl
    | jNum n => rfl
    | jStr s => rfl

/-- C7 witness: `paste_neko_spec` at a concrete network failure and a concrete
well-formed response. -/
theorem paste_neko_spec_witness :
    paste_neko (.error ()) = .ok ("Pasting failed".data)
    ∧ paste_neko (.ok (JVal.jObj
          [(("result".data), JVal.jObj [(("key".data), JVal.jStr ("abcd".data))])]))
        = .ok (("nekobin.com/".data) ++ ("abcd".data) ++ (".py".data)) :=
  ⟨paste_neko_spec.1 (),
   paste_neko_spec.2.1
     [(("result".data), JVal.jObj [(("key".data), JVal.jStr ("abcd".data))])]
     [(("key".data), JVal.jStr ("abcd".data))] ("abcd".data) rfl rfl⟩

/-! ### C8 : language-pack loader `get_langpack` (utils.py) -/

/-- The settings-store key of the configured language. -/
def langKey : List Char × List Char := (("teagram.loader".data), ("lang".data))

/-- Python truthiness of the store lookup (`None` or the empty string are
falsy). -/
def pyTruthyStr : Option (List Char) → Bool
  | none => false
  | some s => !s.isEmpty

/-- `get_langpack` from `teagram/utils.py`.  The store is threaded explicitly;
`packs` abstracts `yaml.safe_load(open(f'teagram/langpacks/{lang}.yml'))`
(modelled from the spec: the pack loaded from that language's file).  The
`Nat` argument bounds the recursion depth (the Python recursion is at most one
level deep, since the miss branch first persists `'en'`).  On a truthy stored
language the `else:` branch returns the loaded pack; on a miss the function
persists `'en'`, calls itself recursively, DISCARDS the result, and falls off
the `if` branch, returning `None`. -/
def get_langpack (packs : List Char → List Char) :
    Nat → List ((List Char × List Char) × List Char) →
    List ((List Char × List Char) × List Char) × Option (List Char)
  | 0, db => (db, none)
  | Nat.succ n, db =>
    let langOpt := getA db langKey
    if pyTruthyStr langOpt then (db, some (packs (langOpt.getD [])))
    else
      let db1 := setA db langKey ("en".data)
      ((get_langpack packs n db1).1, none)

/-- C8: on an empty settings store the loader persists the default `'en'` but
returns `None` (the recursive call's result is discarded), contradicting the
claim — and the function's own docstring — that the loaded language pack is
returned; when a (truthy) language is stored it does return the pack loaded
from that language's file. -/
theorem get_langpack_first_miss :
    get_langpack (fun l => l) 2 [] = ([(langKey, ("en".data))], none)
    ∧ (∀ packs n db lang, getA db langKey = some lang → lang ≠ [] →
        get_langpack packs (n + 1) db = (db, some (packs lang))) := by
  constructor
  · rfl
  · intro packs n db lang hget hne
    have hemp : lang.isEmpty = false := by
      cases lang with
      | nil => exact absurd rfl hne
      | cons c cs => rfl
    simp [get_langpack, pyTruthyStr, hget, hemp]

/-- C8 witness: `get_langpack_first_miss` at a store already holding `'en'`. -/
theorem get_langpack_first_miss_witness :
    get_langpack (fun l => l) 1 [(langKey, ("en".data))]
      = ([(langKey, ("en".data))], some ("en".data)) :=
  get_langpack_first_miss.2 (fun l => l) 0 [(langKey, ("en".data))] ("en".data)
    rfl (by decide)
